import Mathlib

/-!
Shallow embedding of the primitive_db repository (src/primitive_db/core.py,
engine.py, utils.py): a file-backed tabular store with typed columns,
value coercion, and single-predicate record operations.
Machine integers are modelled as Lean Int (Python ints are unbounded);
Python dicts holding records, metadata and the per-table file system are
modelled as association lists with update-in-place semantics; functions
that raise ValueError return Except DBError.
-/

/-- The double-quote character, written by code point to keep string
literals free of quote characters. -/
def dqc : Char := Char.ofNat 34

/-- The single-quote character, written by code point. -/
def sqc : Char := Char.ofNat 39

/-- The whitespace set stripped by Python str.strip() and matched by the
regex class backslash-s (space, tab, newline, carriage return, vertical
tab, form feed). -/
def isSpacePy (c : Char) : Bool :=
  c = ' ' || c = Char.ofNat 9 || c = Char.ofNat 10 || c = Char.ofNat 13
    || c = Char.ofNat 11 || c = Char.ofNat 12

/-- Drop the longest run of characters satisfying p from the front of a
list (the one-sided half of Python str.strip). -/
def stripL (p : Char → Bool) : List Char → List Char
  | [] => []
  | c :: cs => if p c then stripL p cs else c :: cs

/-- Python str.strip(chars): remove every leading and every trailing
character satisfying p. -/
def stripBoth (p : Char → Bool) (l : List Char) : List Char :=
  List.reverse (stripL p (List.reverse (stripL p l)))

/-- The strip pipeline at the top of parse_value:
value_str.strip().strip(dquote).strip(squote). -/
def pyStrip3 (l : List Char) : List Char :=
  stripBoth (fun c => c = sqc) (stripBoth (fun c => c = dqc) (stripBoth isSpacePy l))

/-- String form of the parse_value strip pipeline. -/
def stripPy (s : String) : String := String.mk (pyStrip3 s.toList)

/-- Python str.lower() restricted to the alphabets the program uses:
ASCII letters and the Cyrillic range of the localized boolean tokens. -/
def pyLowerChar (c : Char) : Char :=
  if 65 ≤ c.toNat ∧ c.toNat ≤ 90 then Char.ofNat (c.toNat + 32)
  else if 1040 ≤ c.toNat ∧ c.toNat ≤ 1071 then Char.ofNat (c.toNat + 32)
  else if c.toNat = 1025 then Char.ofNat 1105
  else c

/-- Python s.lower() over a string. -/
def pyLower (s : String) : String := String.mk (s.toList.map pyLowerChar)

/-- One digit of a base-10 literal. -/
def digitVal (c : Char) : Option Nat :=
  if 48 ≤ c.toNat ∧ c.toNat ≤ 57 then some (c.toNat - 48) else none

/-- Accumulate the digits of a Python int literal body, allowing single
underscores strictly between digits (Python 3 int() grammar). The first
argument is the value so far; the Bool records whether the previous
character was an underscore. -/
def digitsAux : Nat → Bool → List Char → Option Nat
  | acc, false, [] => some acc
  | _, true, [] => none
  | acc, prevU, c :: cs =>
    match digitVal c with
    | some d => digitsAux (acc * 10 + d) false cs
    | none =>
      if c = Char.ofNat 95 then
        if prevU then none else digitsAux acc true cs
      else none

/-- Parse the digit part of an int literal: nonempty, no leading or
doubled underscore. -/
def parseDigits : List Char → Option Nat
  | [] => none
  | c :: cs =>
    match digitVal c with
    | some d => digitsAux d false cs
    | none => none

/-- Python int(s): strip whitespace, optional sign, base-10 digits. -/
def parseIntPy (s : String) : Option Int :=
  match stripBoth isSpacePy s.toList with
  | [] => none
  | c :: cs =>
    if c = '-' then (parseDigits cs).map (fun n => -(n : Int))
    else if c = '+' then (parseDigits cs).map (fun n => (n : Int))
    else (parseDigits (c :: cs)).map (fun n => (n : Int))

/-- A typed cell value: the closed variant set produced by parse_value. -/
inductive Value where
  | int (i : Int)
  | str (s : String)
  | bool (b : Bool)
deriving DecidableEq, Repr

/-- Python views bool as a subclass of int, so True == 1 and False == 0;
this gives the numeric reading of a value when it has one. -/
def Value.asNum : Value → Option Int
  | .int i => some i
  | .bool b => some (if b then 1 else 0)
  | .str _ => none

/-- Python == between two cell values: strings compare by content and are
never equal to numbers; ints and bools compare numerically. -/
def pyEq (a b : Value) : Bool :=
  match a, b with
  | .str s, .str t => s = t
  | .str _, _ => false
  | _, .str _ => false
  | a, b => a.asNum = b.asNum

/-- A column of a table definition: {"name": ..., "type": ...}. -/
structure Column where
  name : String
  type : String
deriving DecidableEq, Repr

/-- A record: a Python dict from column name to typed value, modelled as
an association list in insertion order with unique keys maintained by
aset. -/
def Record := List (String × Value)
deriving DecidableEq, Repr

/-- The schema registry db_meta.json: table name to column list. -/
def Metadata := List (String × List Column)
deriving DecidableEq, Repr

/-- The data directory: table name to its persisted record list
(the contents of data/<table>.json). -/
def FS := List (String × List Record)
deriving DecidableEq, Repr

/-- dict lookup: first (and, with unique keys, only) binding of k. -/
def alookup {α : Type} : List (String × α) → String → Option α
  | [], _ => none
  | (k, v) :: rest, k2 => if k = k2 then some v else alookup rest k2

/-- dict assignment d[k] = v: overwrite in place, else append. -/
def aset {α : Type} : List (String × α) → String → α → List (String × α)
  | [], k, v => [(k, v)]
  | (k2, v2) :: rest, k, v =>
    if k2 = k then (k, v) :: rest else (k2, v2) :: aset rest k v

/-- del d[k]: remove the binding of k. -/
def aremove {α : Type} : List (String × α) → String → List (String × α)
  | [], _ => []
  | (k2, v2) :: rest, k =>
    if k2 = k then aremove rest k else (k2, v2) :: aremove rest k

/-- record.get(k) on a record dict. -/
def rget (r : Record) (k : String) : Option Value := alookup r k

/-- record[k] = v on a record dict. -/
def rset (r : Record) (k : String) (v : Value) : Record := aset r k v

/-- utils.load_table_data: the table's record list, or empty when the
file is absent. -/
def loadData (fs : FS) (t : String) : List Record := (alookup fs t).getD []

/-- utils.save_table_data: whole-file rewrite of one table's records. -/
def saveData (fs : FS) (t : String) (d : List Record) : FS := aset fs t d

/-- The error kinds raised (as ValueError) by core.py, labelled with the
spec's names for them. -/
inductive DBError where
  | duplicateTable (t : String)
  | unknownTable (t : String)
  | unknownColumn (c : String)
  | malformedColumnSpec (s : String)
  | invalidColumnType (s : String)
  | arityMismatch (expected got : Nat)
  | typeCoercion (s : String)
  | unknownType (s : String)
  | valueErrorInColumn (col : String)
deriving DecidableEq, Repr

instance {ε α : Type} [DecidableEq ε] [DecidableEq α] : DecidableEq (Except ε α) := fun a b =>
  match a, b with
  | .ok x, .ok y =>
    if h : x = y then .isTrue (by rw [h]) else .isFalse (by intro hh; cases hh; exact h rfl)
  | .error x, .error y =>
    if h : x = y then .isTrue (by rw [h]) else .isFalse (by intro hh; cases hh; exact h rfl)
  | .ok _, .error _ => .isFalse (by intro hh; cases hh)
  | .error _, .ok _ => .isFalse (by intro hh; cases hh)

/-- The accept-set for boolean true in parse_value, lowercase forms. -/
def trueTokens : List String := ["true", "1", "yes", "да", "истина"]

/-- The accept-set for boolean false in parse_value, lowercase forms. -/
def falseTokens : List String := ["false", "0", "no", "нет", "ложь"]

/-- core.parse_value: strip whitespace then all edge quotes, then coerce
by the expected type name. -/
def parse_value (value_str expected_type : String) : Except DBError Value :=
  let v := stripPy value_str
  if expected_type = "int" then
    match parseIntPy v with
    | some i => .ok (.int i)
    | none => .error (.typeCoercion v)
  else if expected_type = "str" then .ok (.str v)
  else if expected_type = "bool" then
    if pyLower v ∈ trueTokens then .ok (.bool true)
    else if pyLower v ∈ falseTokens then .ok (.bool false)
    else .error (.typeCoercion v)
  else .error (.unknownType expected_type)

/-- The valid column type names of core.py. -/
def VALID_TYPES : List String := ["int", "str", "bool"]

/-- Split a column spec at its first colon (Python col.split(colon, 1)),
returning the part before and the part after; none when no colon. -/
def splitFirstColon : List Char → Option (List Char × List Char)
  | [] => none
  | c :: cs =>
    if c = ':' then some ([], cs)
    else
      match splitFirstColon cs with
      | some (pre, post) => some (c :: pre, post)
      | none => none

/-- Parse one user column spec "name:type" as create_table does: require
a colon, strip whitespace from both halves, require a valid type. -/
def parseSpec (col : String) : Except DBError Column :=
  match splitFirstColon col.toList with
  | none => .error (.malformedColumnSpec col)
  | some (n, t) =>
    let name := String.mk (stripBoth isSpacePy n)
    let col_type := String.mk (stripBoth isSpacePy t)
    if col_type ∈ VALID_TYPES then .ok ⟨name, col_type⟩
    else .error (.invalidColumnType col_type)

/-- The column-spec loop of create_table over the user specs. -/
def parseSpecs : List String → Except DBError (List Column)
  | [] => .ok []
  | c :: cs =>
    match parseSpec c with
    | .error e => .error e
    | .ok col =>
      match parseSpecs cs with
      | .error e => .error e
      | .ok rest => .ok (col :: rest)

/-- core.create_table: reject duplicate table names, auto-prepend the
ID:int column, parse user specs, register the table. -/
def create_table (metadata : Metadata) (table_name : String) (columns : List String) :
    Except DBError Metadata :=
  if (alookup metadata table_name).isSome then .error (.duplicateTable table_name)
  else
    match parseSpecs columns with
    | .error e => .error e
    | .ok user_cols =>
      .ok (aset metadata table_name (Column.mk "ID" "int" :: user_cols))

/-- core.drop_table: remove the registry entry, error when absent.  It
performs no file operation on the table's record document. -/
def drop_table (metadata : Metadata) (table_name : String) : Except DBError Metadata :=
  if (alookup metadata table_name).isNone then .error (.unknownTable table_name)
  else .ok (aremove metadata table_name)

/-- record ID as an int; records built by insert_into always carry an
int at key ID, so the default 0 is never reached on well-formed data. -/
def recId (r : Record) : Int :=
  match rget r "ID" with
  | some (.int i) => i
  | _ => 0

/-- max(record[ID] for record in data) over a nonempty record list. -/
def maxIdOf : List Record → Int
  | [] => 0
  | r :: rs => rs.foldl (fun m x => max m (recId x)) (recId r)

/-- The coercion loop of insert_into: set each user column positionally,
wrapping a coercion failure with the offending column's name. -/
def setRow : Record → List Column → List String → Except DBError Record
  | r, [], _ => .ok r
  | r, _ :: _, [] => .ok r
  | r, c :: cs, v :: vs =>
    match parse_value v c.type with
    | .ok pv => setRow (rset r c.name pv) cs vs
    | .error _ => .error (.valueErrorInColumn c.name)

/-- core.insert_into, with the data directory passed explicitly in place
of utils.load_table_data / save_table_data; returns the new directory
and the assigned ID. -/
def insert_into (metadata : Metadata) (table_name : String) (values : List String)
    (fs : FS) : Except DBError (FS × Int) :=
  match alookup metadata table_name with
  | none => .error (.unknownTable table_name)
  | some columns =>
    let user_columns := columns.filter (fun c => c.name ≠ "ID")
    if values.length ≠ user_columns.length then
      .error (.arityMismatch user_columns.length values.length)
    else
      let data := loadData fs table_name
      let new_id : Int := if data.isEmpty then 1 else maxIdOf data + 1
      match setRow [("ID", Value.int new_id)] user_columns values with
      | .error e => .error e
      | .ok record => .ok (saveData fs table_name (data ++ [record]), new_id)

/-- Python truthiness of an optional string argument: None and the empty
string are falsy. -/
def truthyS : Option String → Bool
  | none => false
  | some s => s ≠ ""

/-- Filter-column comparison record.get(c) == v, where a missing key
(None) is never equal to a coerced value. -/
def pyOEq (o : Option Value) (v : Value) : Bool :=
  match o with
  | some x => pyEq x v
  | none => false

/-- The column-type scan with break (select_from, delete_from): the type
of the first column with the given name. -/
def findColTypeFirst : List Column → String → Option String
  | [], _ => none
  | c :: cs, n => if c.name = n then some c.type else findColTypeFirst cs n

/-- The column-type scan without break (update_table): the type of the
last column with the given name. -/
def findColTypeLast : List Column → String → Option String
  | [], _ => none
  | c :: cs, n =>
    match findColTypeLast cs n with
    | some t => some t
    | none => if c.name = n then some c.type else none

/-- core.select_from, returning the records it would display.  The
predicate is applied only when both optional arguments are truthy. -/
def select_from (metadata : Metadata) (table_name : String)
    (where_column where_value : Option String) (fs : FS) :
    Except DBError (List Record) :=
  match alookup metadata table_name with
  | none => .error (.unknownTable table_name)
  | some columns =>
    let data := loadData fs table_name
    if truthyS where_column && truthyS where_value then
      let wc := where_column.getD ""
      let wv := where_value.getD ""
      match findColTypeFirst columns wc with
      | none => .error (.unknownColumn wc)
      | some col_type =>
        match parse_value wv col_type with
        | .error e => .error e
        | .ok pv => .ok (data.filter (fun r => pyOEq (rget r wc) pv))
    else .ok data

/-- The scan-and-mutate loop of update_table: returns the new record
list and, in order, the IDs recorded after each mutation. -/
def updPass (wc sc : String) (pwv psv : Value) : List Record → List Record × List Int
  | [] => ([], [])
  | r :: rs =>
    let (rs2, ids) := updPass wc sc pwv psv rs
    if pyOEq (rget r wc) pwv then
      let r2 := rset r sc psv
      (r2 :: rs2, recId r2 :: ids)
    else (r :: rs2, ids)

/-- core.update_table: resolve both column types (set first), coerce
both values, mutate matching records; zero matches is a non-error exit
before any save. -/
def update_table (metadata : Metadata) (table_name set_column set_value
    where_column where_value : String) (fs : FS) : Except DBError (FS × List Int) :=
  match alookup metadata table_name with
  | none => .error (.unknownTable table_name)
  | some columns =>
    let data := loadData fs table_name
    match findColTypeLast columns set_column with
    | none => .error (.unknownColumn set_column)
    | some set_col_type =>
      match findColTypeLast columns where_column with
      | none => .error (.unknownColumn where_column)
      | some where_col_type =>
        match parse_value set_value set_col_type with
        | .error e => .error e
        | .ok psv =>
          match parse_value where_value where_col_type with
          | .error e => .error e
          | .ok pwv =>
            let (new_data, updated_ids) := updPass where_column set_column pwv psv data
            if updated_ids.isEmpty then .ok (fs, [])
            else .ok (saveData fs table_name new_data, updated_ids)

/-- core.delete_from: partition by predicate equality; no match is a
non-error exit before any save, else persist only the kept records. -/
def delete_from (metadata : Metadata) (table_name where_column where_value : String)
    (fs : FS) : Except DBError (FS × List Int) :=
  match alookup metadata table_name with
  | none => .error (.unknownTable table_name)
  | some columns =>
    let data := loadData fs table_name
    match findColTypeFirst columns where_column with
    | none => .error (.unknownColumn where_column)
    | some where_col_type =>
      match parse_value where_value where_col_type with
      | .error e => .error e
      | .ok pwv =>
        let kept := data.filter (fun r => !(pyOEq (rget r where_column) pwv))
        let deleted_ids := (data.filter (fun r => pyOEq (rget r where_column) pwv)).map recId
        if deleted_ids.isEmpty then .ok (fs, [])
        else .ok (saveData fs table_name kept, deleted_ids)

/-- A whole database state: in-memory registry plus the data directory. -/
structure DBState where
  meta : Metadata
  fs : FS
deriving DecidableEq, Repr

/-- One REPL step running update_table: the engine catches the raised
error and keeps the state untouched (the save happens only inside the
success path of the core call). -/
def runUpdate (st : DBState) (t sc sv wc wv : String) :
    DBState × Except DBError (List Int) :=
  match update_table st.meta t sc sv wc wv st.fs with
  | .error e => (st, .error e)
  | .ok (fs2, ids) => ({ st with fs := fs2 }, .ok ids)

/-- One REPL step running insert_into under the engine's error guard. -/
def runInsert (st : DBState) (t : String) (vals : List String) :
    DBState × Except DBError Int :=
  match insert_into st.meta t vals st.fs with
  | .error e => (st, .error e)
  | .ok (fs2, i) => ({ st with fs := fs2 }, .ok i)

/-- One REPL step running delete_from under the engine's error guard. -/
def runDelete (st : DBState) (t wc wv : String) :
    DBState × Except DBError (List Int) :=
  match delete_from st.meta t wc wv st.fs with
  | .error e => (st, .error e)
  | .ok (fs2, ids) => ({ st with fs := fs2 }, .ok ids)

/-- One REPL step running drop_table: only the registry changes; the
data directory is never touched by drop. -/
def runDrop (st : DBState) (t : String) : DBState × Except DBError Unit :=
  match drop_table st.meta t with
  | .error e => (st, .error e)
  | .ok m2 => ({ st with meta := m2 }, .ok ())

/-- A character the tokenizer regex takes as part of an unquoted run:
neither whitespace nor a quote of either kind. -/
def isPlain (c : Char) : Bool := !(isSpacePy c) && c ≠ dqc && c ≠ sqc

/-- Find the first occurrence of c, splitting the list around it. -/
def splitAtCh (c : Char) : List Char → Option (List Char × List Char)
  | [] => none
  | x :: xs =>
    if x = c then some ([], xs)
    else
      match splitAtCh c xs with
      | some (pre, post) => some (x :: pre, post)
      | none => none

/-- The re.findall scan of parse_command_parts over the pattern
(plain run | double-quoted span | single-quoted span): at each position
take the first alternative that matches, else advance one character.
Fuel equals the input length; every step consumes at least one
character, so the fuel never runs out on scan's call. -/
def scanAux : Nat → List Char → List (List Char)
  | 0, _ => []
  | _ + 1, [] => []
  | fuel + 1, c :: cs =>
    if isPlain c then
      (c :: cs.takeWhile isPlain) :: scanAux fuel (cs.dropWhile isPlain)
    else if c = dqc then
      match splitAtCh dqc cs with
      | some (pre, post) => (dqc :: (pre ++ [dqc])) :: scanAux fuel post
      | none => scanAux fuel cs
    else if c = sqc then
      match splitAtCh sqc cs with
      | some (pre, post) => (sqc :: (pre ++ [sqc])) :: scanAux fuel post
      | none => scanAux fuel cs
    else scanAux fuel cs

/-- The raw token list of one command line. -/
def scanParts (l : List Char) : List (List Char) := scanAux l.length l

/-- engine.parse_command_parts: findall, then p.strip(dquote).strip(squote)
on every token. -/
def parse_command_parts (s : String) : List String :=
  (scanParts s.toList).map
    (fun t => String.mk (stripBoth (fun c => c = sqc) (stripBoth (fun c => c = dqc) t)))

/-- Column names of a table definition. -/
def colNames (cols : List Column) : List String := cols.map Column.name

/-- A registry with one table t(ID:int, x:str), used in concrete runs. -/
def metaTX : Metadata := [("t", [Column.mk "ID" "int", Column.mk "x" "str"])]

/-- A registry with one table t(ID:int, s:str), used in concrete runs. -/
def metaTS : Metadata := [("t", [Column.mk "ID" "int", Column.mk "s" "str"])]

/-- Start state for the ID-reuse run: table t(ID:int, x:str), no data. -/
def idRunSt0 : DBState := ⟨metaTX, []⟩

/-- First insert of the ID-reuse run. -/
def idRunS1 : DBState × Except DBError Int := runInsert idRunSt0 "t" ["a"]

/-- Second insert of the ID-reuse run. -/
def idRunS2 : DBState × Except DBError Int := runInsert idRunS1.1 "t" ["b"]

/-- Deletion of the record holding the maximum ID. -/
def idRunS3 : DBState × Except DBError (List Int) := runDelete idRunS2.1 "t" "ID" "2"

/-- Third insert of the ID-reuse run, after the maximum was deleted. -/
def idRunS4 : DBState × Except DBError Int := runInsert idRunS3.1 "t" ["c"]

/-- A record with ID 1 and s = "x". -/
def recS1x : Record := [("ID", Value.int 1), ("s", Value.str "x")]

/-- A record with ID 1 and s = "" (the empty string). -/
def recS1e : Record := [("ID", Value.int 1), ("s", Value.str "")]

/-- A record with ID 2 and s = "x". -/
def recS2x : Record := [("ID", Value.int 2), ("s", Value.str "x")]

/-- Data directory holding one record in table t. -/
def fsOne : FS := [("t", [recS1x])]

/-- Data directory holding two records in table t, the first with an
empty s value. -/
def fsTwo : FS := [("t", [recS1e, recS2x])]

/-- Raw command line: a single-quoted word wrapped in double quotes. -/
def cmdNested : String := String.mk [dqc, sqc, 'a', sqc, dqc]

/-- Raw command line: an unquoted run with an interior double quote. -/
def cmdSplit : String := String.mk ['a', dqc, 'b']

/-! ### Association-list (dict) lemmas -/

theorem alookup_aset_self {α : Type} (m : List (String × α)) (k : String) (v : α) :
    alookup (aset m k v) k = some v := by
  induction m with
  | nil => simp [aset, alookup]
  | cons p rest ih =>
    obtain ⟨k2, v2⟩ := p
    by_cases hk : k2 = k
    · subst hk; simp [aset, alookup]
    · simp [aset, alookup, hk, ih]

theorem alookup_aset_ne {α : Type} (m : List (String × α)) (k u : String) (v : α)
    (h : u ≠ k) : alookup (aset m k v) u = alookup m u := by
  induction m with
  | nil => simp [aset, alookup, Ne.symm h]
  | cons p rest ih =>
    obtain ⟨k2, v2⟩ := p
    by_cases hk : k2 = k
    · subst hk; simp [aset, alookup, Ne.symm h]
    · simp [aset, alookup, hk, ih]

theorem alookup_aremove_self {α : Type} (m : List (String × α)) (k : String) :
    alookup (aremove m k) k = none := by
  induction m with
  | nil => simp [aremove, alookup]
  | cons p rest ih =>
    obtain ⟨k2, v2⟩ := p
    by_cases hk : k2 = k
    · simp [aremove, hk, ih]
    · simp [aremove, alookup, hk, ih]

theorem alookup_aremove_ne {α : Type} (m : List (String × α)) (k u : String)
    (h : u ≠ k) : alookup (aremove m k) u = alookup m u := by
  induction m with
  | nil => simp [aremove]
  | cons p rest ih =>
    obtain ⟨k2, v2⟩ := p
    by_cases hk : k2 = k
    · subst hk; simp [aremove, alookup, Ne.symm h, ih]
    · simp [aremove, alookup, hk, ih]

theorem loadData_saveData (fs : FS) (t : String) (d : List Record) :
    loadData (saveData fs t d) t = d := by
  simp [loadData, saveData, alookup_aset_self]

/-! ### Strip-function lemmas -/

theorem stripL_cons_true {p : Char → Bool} {c : Char} (l : List Char) (h : p c = true) :
    stripL p (c :: l) = stripL p l := by
  simp [stripL, h]

theorem stripL_head_false {p : Char → Bool} : ∀ {l : List Char},
    (∀ c, l.head? = some c → p c = false) → stripL p l = l
  | [], _ => rfl
  | c :: cs, h => by
    have hc : p c = false := h c rfl
    simp [stripL, hc]

theorem stripL_all_false {p : Char → Bool} {l : List Char}
    (h : ∀ c ∈ l, p c = false) : stripL p l = l := by
  refine stripL_head_false ?_
  intro c hc
  cases l with
  | nil => simp at hc
  | cons a as => simp at hc; subst hc; exact h a (by simp)

theorem stripL_replicate {p : Char → Bool} {c : Char} (h : p c = true) :
    ∀ (n : Nat) (l : List Char), stripL p (List.replicate n c ++ l) = stripL p l := by
  intro n
  induction n with
  | zero => intro l; simp
  | succ k ih =>
    intro l
    rw [List.replicate_succ, List.cons_append, stripL_cons_true _ h, ih]

theorem stripBoth_noop {p : Char → Bool} {l : List Char}
    (h1 : ∀ c, l.head? = some c → p c = false)
    (h2 : ∀ c, l.getLast? = some c → p c = false) : stripBoth p l = l := by
  unfold stripBoth
  rw [stripL_head_false h1,
    stripL_head_false (fun c hc => h2 c (by rwa [List.head?_reverse] at hc)),
    List.reverse_reverse]

theorem stripBoth_all_false {p : Char → Bool} {l : List Char}
    (h : ∀ c ∈ l, p c = false) : stripBoth p l = l := by
  refine stripBoth_noop ?_ ?_
  · intro c hc
    cases l with
    | nil => simp at hc
    | cons a as => simp at hc; subst hc; exact h a (by simp)
  · intro c hc
    have hm : c ∈ l.reverse := by
      rw [← List.head?_reverse] at hc
      cases hr : l.reverse with
      | nil => rw [hr] at hc; simp at hc
      | cons a as => rw [hr] at hc; simp at hc; subst hc; simp
    exact h c (List.mem_reverse.mp hm)

theorem getLast?_replicate_succ (c : Char) : ∀ n : Nat,
    (List.replicate (n + 1) c).getLast? = some c := by
  intro n
  induction n with
  | zero => rfl
  | succ k ih =>
    rw [List.replicate_succ, List.replicate_succ, List.getLast?_cons_cons,
      ← List.replicate_succ]
    exact ih

theorem stripBoth_rep_wrap {p : Char → Bool} {c : Char} (hc : p c = true)
    (n m : Nat) (i0 : Char) (irest : List Char)
    (h0 : p i0 = false)
    (hl : ∀ x, (i0 :: irest).getLast? = some x → p x = false) :
    stripBoth p (List.replicate n c ++ ((i0 :: irest) ++ List.replicate m c)) =
      i0 :: irest := by
  unfold stripBoth
  rw [stripL_replicate hc]
  rw [show (i0 :: irest) ++ List.replicate m c = i0 :: (irest ++ List.replicate m c)
    from rfl]
  rw [stripL_head_false (l := i0 :: (irest ++ List.replicate m c))
    (by intro x hx; simp at hx; subst hx; exact h0)]
  rw [List.reverse_cons, List.reverse_append, List.reverse_replicate,
    List.append_assoc, stripL_replicate hc]
  rw [show irest.reverse ++ [i0] = (i0 :: irest).reverse from (List.reverse_cons _ _).symm]
  rw [stripL_head_false (fun x hx => hl x (by rwa [List.head?_reverse] at hx)),
    List.reverse_reverse]

theorem stripBoth_wrap_allfalse {p : Char → Bool} {c : Char} (hc : p c = true)
    {l : List Char} (hl : ∀ x ∈ l, p x = false) :
    stripBoth p (c :: (l ++ [c])) = l := by
  unfold stripBoth
  rw [stripL_cons_true _ hc]
  cases l with
  | nil => simp [stripL, hc]
  | cons a as =>
    have ha : p a = false := hl a (by simp)
    rw [show (a :: as) ++ [c] = a :: (as ++ [c]) from rfl]
    rw [stripL_head_false (l := a :: (as ++ [c]))
      (by intro x hx; simp at hx; subst hx; exact ha)]
    rw [List.reverse_cons, List.reverse_append]
    rw [show [c].reverse ++ as.reverse ++ [a] = c :: (as.reverse ++ [a]) by simp]
    rw [stripL_cons_true _ hc]
    rw [stripL_all_false (by
      intro x hx
      rcases List.mem_append.mp hx with hx1 | hx2
      · exact hl x (by simp [List.mem_reverse.mp hx1])
      · simp at hx2; subst hx2; exact ha)]
    simp

/-! ### Tokenizer lemmas -/

theorem splitAtCh_wrap {c : Char} : ∀ {l : List Char},
    c ∉ l → splitAtCh c (l ++ [c]) = some (l, []) := by
  intro l
  induction l with
  | nil => intro _; simp [splitAtCh]
  | cons a as ih =>
    intro h
    have ha : ¬ (a = c) := by intro hh; exact h (by simp [hh])
    have has : c ∉ as := by intro hh; exact h (by simp [hh])
    simp [splitAtCh, ha, ih has]

theorem scanAux_nil : ∀ n : Nat, scanAux n [] = [] := by
  intro n; cases n <;> rfl

/-! ### List utility lemmas -/

theorem filter_of_filter_not {α : Type} (p : α → Bool) (l : List α) :
    (l.filter (fun a => !(p a))).filter p = [] := by
  induction l with
  | nil => rfl
  | cons a as ih => cases hp : p a <;> simp [List.filter_cons, hp, ih]

theorem le_foldl_max (l : List Record) : ∀ a : Int,
    a ≤ l.foldl (fun m x => max m (recId x)) a := by
  induction l with
  | nil => intro a; simp
  | cons r rs ih =>
    intro a
    exact le_trans (le_max_left a (recId r)) (ih _)

theorem mem_le_foldl_max {l : List Record} {r : Record} (h : r ∈ l) : ∀ a : Int,
    recId r ≤ l.foldl (fun m x => max m (recId x)) a := by
  induction l with
  | nil => cases h
  | cons x xs ih =>
    intro a
    rcases List.mem_cons.mp h with rfl | hm
    · exact le_trans (le_max_right a (recId r)) (le_foldl_max xs _)
    · exact ih hm _

theorem maxIdOf_ge {data : List Record} {r : Record} (h : r ∈ data) :
    recId r ≤ maxIdOf data := by
  cases data with
  | nil => cases h
  | cons d ds =>
    rcases List.mem_cons.mp h with rfl | hm
    · exact le_foldl_max ds _
    · exact mem_le_foldl_max hm _

/-! ### Schema and row lemmas -/

theorem findColTypeLast_none {cols : List Column} {n : String} :
    findColTypeLast cols n = none ↔ n ∉ colNames cols := by
  induction cols with
  | nil => simp [findColTypeLast, colNames]
  | cons c cs ih =>
    rw [show colNames (c :: cs) = c.name :: colNames cs from rfl]
    cases hcs : findColTypeLast cs n with
    | some t =>
      have hn : n ∈ colNames cs := by
        by_contra hn
        rw [← ih] at hn
        rw [hcs] at hn
        cases hn
      simp [findColTypeLast, hcs, List.mem_cons, hn]
    | none =>
      have hn : n ∉ colNames cs := ih.mp hcs
      by_cases hc : c.name = n
      · simp [findColTypeLast, hcs, List.mem_cons, hc]
      · simp only [findColTypeLast, hcs, List.mem_cons]
        rw [if_neg hc]
        constructor
        · intro _ hh
          rcases hh with hh1 | hh2
          · exact hc hh1.symm
          · exact hn hh2
        · intro _
          rfl

theorem findColTypeLast_mem {cols : List Column} {n : String}
    (h : n ∈ colNames cols) : ∃ t, findColTypeLast cols n = some t := by
  cases hf : findColTypeLast cols n with
  | some t => exact ⟨t, rfl⟩
  | none => exact absurd h (findColTypeLast_none.mp hf)

theorem parseSpecs_ok : ∀ {specs : List String},
    (∀ s ∈ specs, ∃ c, parseSpec s = .ok c) →
    ∃ ucols, parseSpecs specs = .ok ucols ∧ ucols.length = specs.length := by
  intro specs
  induction specs with
  | nil => intro _; exact ⟨[], rfl, rfl⟩
  | cons s ss ih =>
    intro h
    obtain ⟨c, hc⟩ := h s (by simp)
    obtain ⟨rest, hrest, hlen⟩ := ih (fun x hx => h x (by simp [hx]))
    exact ⟨c :: rest, by simp [parseSpecs, hc, hrest], by simp [hlen]⟩

theorem rget_rset_ne {r : Record} {k u : String} {v : Value} (h : u ≠ k) :
    rget (rset r k v) u = rget r u := alookup_aset_ne r k u v h

theorem setRow_id {x : Value} : ∀ (cs : List Column) (vs : List String) (r rec : Record),
    (∀ c ∈ cs, c.name ≠ "ID") → rget r "ID" = some x →
    setRow r cs vs = .ok rec → rget rec "ID" = some x := by
  intro cs
  induction cs with
  | nil =>
    intro vs r rec _ hr hs
    cases hs
    exact hr
  | cons c cs2 ih =>
    intro vs r rec hnames hr hs
    cases vs with
    | nil =>
      cases hs
      exact hr
    | cons v vs2 =>
      rw [setRow] at hs
      cases hp : parse_value v c.type with
      | error e => rw [hp] at hs; cases hs
      | ok pv =>
        rw [hp] at hs
        refine ih vs2 (rset r c.name pv) rec (fun d hd => hnames d (by simp [hd])) ?_ hs
        rw [rget_rset_ne]
        · exact hr
        · intro hh
          exact hnames c (by simp) (by rw [hh])

/-! ### Claim C1: quote stripping in parse_value -/

/-- parse_value with expected type str returns the stripped string. -/
theorem parse_value_str_eq (s : String) :
    parse_value s "str" = .ok (.str (stripPy s)) := rfl

/-- The head of a list wrapped in replicated characters is the wrap
character or the interior's head. -/
theorem head?_rep_wrap {c x i0 : Char} {n : Nat} {irest l2 : List Char}
    (hx : (List.replicate n c ++ ((i0 :: irest) ++ l2)).head? = some x) :
    x = c ∨ x = i0 := by
  cases n with
  | zero =>
    simp at hx
    exact Or.inr hx.symm
  | succ k =>
    rw [List.replicate_succ] at hx
    simp at hx
    exact Or.inl hx.symm

/-- The last element of a list wrapped in replicated characters is the
wrap character or the interior's last element. -/
theorem getLast?_rep_wrap {c x i0 : Char} {n m : Nat} {irest : List Char}
    (hx : (List.replicate n c ++ ((i0 :: irest) ++ List.replicate m c)).getLast? =
      some x) :
    x = c ∨ (i0 :: irest).getLast? = some x := by
  cases m with
  | zero =>
    rw [List.replicate_zero, List.append_nil] at hx
    rw [List.getLast?_append_of_ne_nil _ (by simp)] at hx
    exact Or.inr hx
  | succ k =>
    rw [List.getLast?_append_of_ne_nil _ (by simp)] at hx
    rw [List.getLast?_append_of_ne_nil _ (by simp [List.replicate_succ])] at hx
    rw [getLast?_replicate_succ] at hx
    exact Or.inl (Option.some.inj hx).symm

/-- C1 (counterexample): coercing the five-character string made of two
double quotes, the digit 4 and two double quotes as text yields the
one-character string 4 rather than the three-character quoted string:
parse_value does not remove exactly one layer of matching quotes. -/
theorem parse_value_not_single_layer :
    parse_value "\"\"4\"\"" "str" = .ok (.str "4") ∧
    parse_value "\"\"4\"\"" "str" ≠ .ok (.str "\"4\"") :=
  ⟨by decide, by decide⟩

/-- C1 (amended): after trimming whitespace, parse_value removes every
leading and trailing double-quote character (then every single-quote
character), however many layers there are and even when unmatched; the
interior survives unchanged whenever its edges are neither whitespace
nor quotes.  Stated for the text type, whose result is the stripped
string itself. -/
theorem parse_value_strips_all_quote_layers (n m : Nat) (i0 : Char) (irest : List Char)
    (hsp : isSpacePy i0 = false) (hd : i0 ≠ dqc) (hs : i0 ≠ sqc)
    (hlast : ∀ x, (i0 :: irest).getLast? = some x →
      isSpacePy x = false ∧ x ≠ dqc ∧ x ≠ sqc) :
    parse_value
      (String.mk (List.replicate n dqc ++ ((i0 :: irest) ++ List.replicate m dqc)))
      "str" = .ok (.str (String.mk (i0 :: irest))) := by
  rw [parse_value_str_eq]
  suffices hAB : pyStrip3
      (List.replicate n dqc ++ ((i0 :: irest) ++ List.replicate m dqc)) =
      i0 :: irest by
    exact congrArg (fun l => Except.ok (Value.str (String.mk l))) hAB
  unfold pyStrip3
  have h1 : stripBoth isSpacePy
      (List.replicate n dqc ++ ((i0 :: irest) ++ List.replicate m dqc)) =
      List.replicate n dqc ++ ((i0 :: irest) ++ List.replicate m dqc) := by
    apply stripBoth_noop
    · intro x hx
      rcases head?_rep_wrap hx with rfl | rfl
      · decide
      · exact hsp
    · intro x hx
      rcases getLast?_rep_wrap hx with rfl | hxl
      · decide
      · exact (hlast x hxl).1
  rw [h1]
  have h2 : stripBoth (fun c => c = dqc)
      (List.replicate n dqc ++ ((i0 :: irest) ++ List.replicate m dqc)) =
      i0 :: irest := by
    apply stripBoth_rep_wrap (by simp) n m i0 irest (by simp [hd])
    intro x hx
    simp [(hlast x hx).2.1]
  rw [h2]
  apply stripBoth_noop
  · intro x hx
    simp at hx
    subst hx
    simp [hs]
  · intro x hx
    simp [(hlast x hx).2.2]

/-- C1 (witness): the amended theorem applied with two quote layers on
each side of the bare digit 4. -/
theorem parse_value_strips_all_quote_layers_witness :
    parse_value (String.mk (List.replicate 2 dqc ++ (['4'] ++ List.replicate 2 dqc)))
      "str" = .ok (.str (String.mk ['4'])) :=
  parse_value_strips_all_quote_layers 2 2 '4' [] (by decide) (by decide) (by decide)
    (by intro x hx; simp at hx; subst hx; exact ⟨by decide, by decide, by decide⟩)

/-! ### Claim C2: the auto-prepended ID column -/

/-- C2 (counterexample): create_table accepts a user spec that
duplicates the ID column, producing a table definition with two columns
named ID; column-name uniqueness is not validated. -/
theorem create_table_allows_duplicate_id :
    create_table [] "t" ["ID:int"] =
      .ok [("t", [Column.mk "ID" "int", Column.mk "ID" "int"])] ∧
    ¬ (colNames [Column.mk "ID" "int", Column.mk "ID" "int"]).Nodup :=
  ⟨by decide, by decide⟩

/-- C2 (amended): on a fresh table name with parseable column specs,
create_table succeeds and the table definition is exactly one
automatically added ID:int column followed by one column per user spec;
name uniqueness among those columns is not enforced. -/
theorem create_table_auto_id (meta : Metadata) (t : String) (specs : List String)
    (habs : alookup meta t = none)
    (hok : ∀ s ∈ specs, ∃ c, parseSpec s = .ok c) :
    ∃ ucols, parseSpecs specs = .ok ucols ∧
      create_table meta t specs = .ok (aset meta t (Column.mk "ID" "int" :: ucols)) ∧
      ucols.length = specs.length := by
  obtain ⟨ucols, hu, hlen⟩ := parseSpecs_ok hok
  refine ⟨ucols, hu, ?_, hlen⟩
  simp [create_table, habs, hu]

/-- C2 (witness): creating table t with the single spec a:int in an
empty registry. -/
theorem create_table_auto_id_witness :
    ∃ ucols, parseSpecs ["a:int"] = .ok ucols ∧
      create_table [] "t" ["a:int"] = .ok (aset [] "t" (Column.mk "ID" "int" :: ucols)) ∧
      ucols.length = 1 :=
  create_table_auto_id [] "t" ["a:int"] rfl
    (by intro s hs; simp at hs; subst hs; exact ⟨Column.mk "a" "int", by decide⟩)

/-! ### Claim C6: boolean coercion -/

/-- parse_value with expected type bool is the two-list membership test
on the lowered, stripped input. -/
theorem parse_value_bool_eq (s : String) :
    parse_value s "bool" =
      (if pyLower (stripPy s) ∈ trueTokens then .ok (.bool true)
       else if pyLower (stripPy s) ∈ falseTokens then .ok (.bool false)
       else .error (.typeCoercion (stripPy s))) := rfl

/-- No token is in both boolean accept-sets. -/
theorem tokens_disjoint : ∀ x ∈ trueTokens, x ∉ falseTokens := by
  intro x hx
  fin_cases hx <;> decide

/-- C6: boolean coercion returns true exactly on the affirmative tokens
(ASCII and localized), false exactly on the negative tokens, both after
trimming, unquoting and lowercasing, and fails with TypeCoercionError on
every other token. -/
theorem parse_value_bool_cases (s : String) :
    (parse_value s "bool" = .ok (.bool true) ↔ pyLower (stripPy s) ∈ trueTokens) ∧
    (parse_value s "bool" = .ok (.bool false) ↔ pyLower (stripPy s) ∈ falseTokens) ∧
    (pyLower (stripPy s) ∉ trueTokens → pyLower (stripPy s) ∉ falseTokens →
      parse_value s "bool" = .error (.typeCoercion (stripPy s))) := by
  rw [parse_value_bool_eq]
  by_cases h1 : pyLower (stripPy s) ∈ trueTokens
  · have h2 : pyLower (stripPy s) ∉ falseTokens := tokens_disjoint _ h1
    simp [h1, h2]
  · by_cases h2 : pyLower (stripPy s) ∈ falseTokens
    · simp [h1, h2]
    · simp [h1, h2]

/-- C6 (witness): an uppercase affirmative, a padded negative, and a
rejected token. -/
theorem parse_value_bool_cases_witness :
    parse_value "TRUE" "bool" = .ok (.bool true) ∧
    parse_value " no " "bool" = .ok (.bool false) ∧
    parse_value "maybe" "bool" = .error (.typeCoercion (stripPy "maybe")) :=
  ⟨(parse_value_bool_cases "TRUE").1.mpr (by decide),
   (parse_value_bool_cases " no ").2.1.mpr (by decide),
   (parse_value_bool_cases "maybe").2.2 (by decide) (by decide)⟩

/-! ### Claim C3: ID assignment policy -/

/-- C3 (counterexample): insert, insert, delete the max-ID record,
insert again: the assigned IDs are 1, 2, 2 — the ID freed by deleting
the maximum is reassigned, so IDs are not strictly increasing over
sequences of inserts and deletes. -/
theorem insert_ids_not_strictly_increasing :
    idRunS1.2 = .ok 1 ∧ idRunS2.2 = .ok 2 ∧ idRunS3.2 = .ok [2] ∧
      idRunS4.2 = .ok 2 :=
  ⟨by decide, by decide, by decide, by decide⟩

/-- C3 (amended): a successful insert assigns ID = max existing ID + 1,
or 1 when the record set is empty; the assigned ID is strictly greater
than every ID present at insertion time, and the new record carrying it
is appended at the end.  (Deleting the record holding the maximum ID
frees that ID for reassignment, so IDs need not increase strictly
across interleaved deletes.) -/
theorem insert_id_policy (meta : Metadata) (t : String) (vals : List String) (fs : FS)
    (fs2 : FS) (i : Int) (columns : List Column)
    (hT : alookup meta t = some columns)
    (hwf : ∀ r ∈ loadData fs t, ∃ k : Int, rget r "ID" = some (.int k))
    (hins : insert_into meta t vals fs = .ok (fs2, i)) :
    (i = if (loadData fs t).isEmpty then 1 else maxIdOf (loadData fs t) + 1) ∧
    (∀ r ∈ loadData fs t, recId r < i) ∧
    (∃ rec, loadData fs2 t = loadData fs t ++ [rec] ∧
      rget rec "ID" = some (.int i)) := by
  simp only [insert_into, hT] at hins
  split at hins
  · exact absurd hins (by simp)
  · split at hins
    · exact absurd hins (by simp)
    · next record heq =>
      rw [Except.ok.injEq, Prod.mk.injEq] at hins
      obtain ⟨hfs2, hi⟩ := hins
      subst hfs2
      subst hi
      refine ⟨rfl, ?_, ?_⟩
      · intro r hr
        have hne : loadData fs t ≠ [] := by
          intro hh
          rw [hh] at hr
          cases hr
        have hie : (loadData fs t).isEmpty = false := by
          simpa [List.isEmpty_iff] using hne
        rw [hie]
        simp only [Bool.false_eq_true, if_false]
        exact Int.lt_add_one_iff.mpr (maxIdOf_ge hr)
      · refine ⟨record, by rw [loadData_saveData], ?_⟩
        refine setRow_id _ _ _ _ ?_ ?_ heq
        · intro c hc
          have hcf := (List.mem_filter.mp hc).2
          simpa using hcf
        · simp [rget, alookup]

/-- C3 (witness): inserting into an empty table assigns ID 1 and appends
the record. -/
theorem insert_id_policy_witness :
    ∃ rec, loadData [("t", [[("ID", Value.int 1), ("x", Value.str "a")]])] "t" =
      loadData ([] : FS) "t" ++ [rec] ∧ rget rec "ID" = some (.int 1) :=
  (insert_id_policy metaTX "t" ["a"] []
    [("t", [[("ID", Value.int 1), ("x", Value.str "a")]])] 1
    [Column.mk "ID" "int", Column.mk "x" "str"] (by decide)
    (by intro r hr; simp [loadData, alookup] at hr) (by decide)).2.2

/-! ### Claim C4: update with unknown column saves nothing -/

/-- C4: when either the set column or the where column is absent from
the table's schema, update fails with the UnknownColumn error kind and
the database state — in particular the persisted record set — is
byte-for-byte unchanged. -/
theorem update_unknown_column_no_save (st : DBState) (t sc sv wc wv : String)
    (cols : List Column) (hT : alookup st.meta t = some cols)
    (hcol : sc ∉ colNames cols ∨ wc ∉ colNames cols) :
    (runUpdate st t sc sv wc wv).1 = st ∧
    ∃ c, (runUpdate st t sc sv wc wv).2 = .error (.unknownColumn c) := by
  have hupd : ∃ c, update_table st.meta t sc sv wc wv st.fs =
      .error (.unknownColumn c) := by
    rcases hcol with hsc | hwc
    · have hf : findColTypeLast cols sc = none := findColTypeLast_none.mpr hsc
      exact ⟨sc, by simp [update_table, hT, hf]⟩
    · cases hfs : findColTypeLast cols sc with
      | none => exact ⟨sc, by simp [update_table, hT, hfs]⟩
      | some ty =>
        have hf : findColTypeLast cols wc = none := findColTypeLast_none.mpr hwc
        exact ⟨wc, by simp [update_table, hT, hfs, hf]⟩
  obtain ⟨c, hc⟩ := hupd
  refine ⟨?_, c, ?_⟩ <;> simp [runUpdate, hc]

/-- C4 (witness): updating the nonexistent column zzz of table t leaves
the state exactly as it was and reports an unknown column. -/
theorem update_unknown_column_no_save_witness :
    (runUpdate ⟨metaTX, []⟩ "t" "zzz" "5" "ID" "1").1 = ⟨metaTX, []⟩ ∧
    ∃ c, (runUpdate ⟨metaTX, []⟩ "t" "zzz" "5" "ID" "1").2 =
      .error (.unknownColumn c) :=
  update_unknown_column_no_save ⟨metaTX, []⟩ "t" "zzz" "5" "ID" "1"
    [Column.mk "ID" "int", Column.mk "x" "str"] (by decide) (Or.inl (by decide))

/-! ### Claim C10: falsy predicate arguments are silently ignored -/

/-- C10: when the where column is absent or empty, or the where value is
absent or empty, select ignores the predicate and returns every record
of the table, raising no UnknownColumn failure even for columns not in
the schema. -/
theorem select_falsy_predicate_ignored (meta : Metadata) (t : String)
    (cols : List Column) (wc wv : Option String) (fs : FS)
    (hT : alookup meta t = some cols)
    (h : truthyS wc = false ∨ truthyS wv = false) :
    select_from meta t wc wv fs = .ok (loadData fs t) := by
  have hcond : (truthyS wc && truthyS wv) = false := by
    rcases h with h | h <;> simp [h]
  simp [select_from, hT, hcond]

/-- C10 (witness): a where column not in the schema combined with an
empty where value returns all records without error. -/
theorem select_falsy_predicate_ignored_witness :
    select_from metaTS "t" (some "ghost") (some "") fsOne = .ok (loadData fsOne "t") ∧
    loadData fsOne "t" = [recS1x] :=
  ⟨select_falsy_predicate_ignored metaTS "t"
    [Column.mk "ID" "int", Column.mk "s" "str"] (some "ghost") (some "") fsOne
    (by decide) (Or.inr (by decide)), by decide⟩

/-! ### Claim C5: typed predicate filtering in select -/

/-- If a filter keeps nothing, every element fails the predicate. -/
theorem filter_eq_nil_forall {α : Type} {p : α → Bool} {l : List α}
    (h : l.filter p = []) : ∀ a ∈ l, p a = false := by
  intro a ha
  cases hb : p a with
  | false => rfl
  | true =>
    have hmem : a ∈ l.filter p := List.mem_filter.mpr ⟨ha, hb⟩
    rw [h] at hmem
    cases hmem

/-- Filtering by the negation of an everywhere-false predicate keeps
the whole list. -/
theorem filter_not_of_false {α : Type} {p : α → Bool} {l : List α}
    (h : ∀ a ∈ l, p a = false) : l.filter (fun a => !(p a)) = l := by
  induction l with
  | nil => rfl
  | cons a as ih =>
    have ha := h a (by simp)
    simp [List.filter_cons, ha, ih (fun x hx => h x (by simp [hx]))]

/-- C5 (counterexample): with an empty where value the predicate is
silently dropped: select returns every record, although no record's s
value equals the coerced empty string, so the claimed typed filtering
does not happen for this predicate. -/
theorem select_empty_value_skips_filter :
    select_from metaTS "t" (some "s") (some "") fsOne = .ok [recS1x] ∧
    parse_value "" "str" = .ok (.str "") ∧
    (loadData fsOne "t").filter (fun r => pyOEq (rget r "s") (.str "")) = [] :=
  ⟨by decide, by decide, by decide⟩

/-- C5 (amended): for a nonempty where column present in the schema and
a nonempty where value that coerces to the column's type, select
returns exactly the records whose value under that column equals the
coerced value by Python equality, in on-disk order; a missing table is
the distinct UnknownTable failure. -/
theorem select_typed_filter (meta : Metadata) (t wc wv : String) (fs : FS)
    (cols : List Column) (ty : String) (v : Value) :
    (alookup meta t = some cols → wc ≠ "" → wv ≠ "" →
      findColTypeFirst cols wc = some ty → parse_value wv ty = .ok v →
      select_from meta t (some wc) (some wv) fs =
        .ok ((loadData fs t).filter (fun r => pyOEq (rget r wc) v))) ∧
    (alookup meta t = none →
      select_from meta t (some wc) (some wv) fs = .error (.unknownTable t)) := by
  constructor
  · intro hT hwc hwv hty hv
    have hcond : (truthyS (some wc) && truthyS (some wv)) = true := by
      simp [truthyS, hwc, hwv]
    simp [select_from, hT, hcond, hty, hv]
  · intro hT
    simp [select_from, hT]

/-- C5 (witness): a typed match on table t plus the UnknownTable outcome
on an empty registry. -/
theorem select_typed_filter_witness :
    select_from metaTS "t" (some "s") (some "x") fsOne =
      .ok ((loadData fsOne "t").filter (fun r => pyOEq (rget r "s") (.str "x"))) ∧
    select_from ([] : Metadata) "t" (some "s") (some "x") [] =
      .error (.unknownTable "t") :=
  ⟨(select_typed_filter metaTS "t" "s" "x" fsOne
      [Column.mk "ID" "int", Column.mk "s" "str"] "str" (.str "x")).1
      (by decide) (by decide) (by decide) (by decide) (by decide),
   (select_typed_filter [] "t" "s" "x" [] [] "str" (.str "x")).2 rfl⟩

/-! ### Claim C7: delete then select with the same predicate -/

/-- C7 (counterexample): deleting with an empty where value does filter
(delete has no truthiness guard), but selecting with the same empty
where value skips the filter, so delete-then-select with the same
predicate is not empty. -/
theorem delete_then_select_empty_value_not_empty :
    delete_from metaTS "t" "s" "" fsTwo = .ok ([("t", [recS2x])], [1]) ∧
    select_from metaTS "t" (some "s") (some "") [("t", [recS2x])] =
      .ok [recS2x] ∧
    ([recS2x] : List Record) ≠ [] :=
  ⟨by decide, by decide, by decide⟩

/-- C7 (amended): for a nonempty predicate whose value coerces, a
successful delete persists exactly the non-matching partition, reports
the deleted IDs in order, saves nothing when no record matches, and a
subsequent select with the same predicate returns the empty sequence. -/
theorem delete_then_select_empty (meta : Metadata) (t wc wv : String) (fs : FS)
    (cols : List Column) (ty : String) (v : Value) (fs2 : FS) (ids : List Int)
    (hT : alookup meta t = some cols)
    (hwc : wc ≠ "") (hwv : wv ≠ "")
    (hty : findColTypeFirst cols wc = some ty)
    (hv : parse_value wv ty = .ok v)
    (hdel : delete_from meta t wc wv fs = .ok (fs2, ids)) :
    loadData fs2 t = (loadData fs t).filter (fun r => !(pyOEq (rget r wc) v)) ∧
    ids = ((loadData fs t).filter (fun r => pyOEq (rget r wc) v)).map recId ∧
    (ids = [] → fs2 = fs) ∧
    select_from meta t (some wc) (some wv) fs2 = .ok [] := by
  have hsel : ∀ fs3 : FS,
      select_from meta t (some wc) (some wv) fs3 =
        .ok ((loadData fs3 t).filter (fun r => pyOEq (rget r wc) v)) := by
    intro fs3
    have hcond : (truthyS (some wc) && truthyS (some wv)) = true := by
      simp [truthyS, hwc, hwv]
    simp [select_from, hT, hcond, hty, hv]
  simp only [delete_from, hT, hty, hv] at hdel
  split at hdel
  · next hempty =>
    rw [Except.ok.injEq, Prod.mk.injEq] at hdel
    obtain ⟨h1, h2⟩ := hdel
    subst h1
    subst h2
    have hmap : ((loadData fs t).filter
        (fun r => pyOEq (rget r wc) v)).map recId = [] := by
      simpa [List.isEmpty_iff] using hempty
    have hmatch : (loadData fs t).filter (fun r => pyOEq (rget r wc) v) = [] :=
      List.map_eq_nil_iff.mp hmap
    have hforall := filter_eq_nil_forall hmatch
    refine ⟨(filter_not_of_false hforall).symm, ?_, fun _ => rfl, ?_⟩
    · rw [hmatch]
      rfl
    · rw [hsel fs, hmatch]
  · next hne =>
    rw [Except.ok.injEq, Prod.mk.injEq] at hdel
    obtain ⟨h1, h2⟩ := hdel
    subst h1
    subst h2
    refine ⟨by rw [loadData_saveData], rfl, ?_, ?_⟩
    · intro hids
      exact absurd (by simp [hids]) hne
    · rw [hsel, loadData_saveData, filter_of_filter_not]

/-- C7 (witness): deleting the single matching record of table t and
selecting again with the same predicate. -/
theorem delete_then_select_empty_witness :
    loadData [("t", ([] : List Record))] "t" =
      (loadData fsOne "t").filter (fun r => !(pyOEq (rget r "s") (.str "x"))) ∧
    [(1 : Int)] =
      ((loadData fsOne "t").filter (fun r => pyOEq (rget r "s") (.str "x"))).map recId ∧
    (([(1 : Int)]) = [] → [("t", ([] : List Record))] = fsOne) ∧
    select_from metaTS "t" (some "s") (some "x") [("t", ([] : List Record))] =
      .ok [] :=
  delete_then_select_empty metaTS "t" "s" "x" fsOne
    [Column.mk "ID" "int", Column.mk "s" "str"] "str" (.str "x")
    [("t", [])] [1] (by decide) (by decide) (by decide) (by decide) (by decide)
    (by decide)

/-! ### Claim C8: drop removes only the registry entry -/

/-- C8: drop_table fails with UnknownTable when the name is absent,
otherwise removes exactly that entry (every other table's entry is
unchanged), and the data directory is never touched by a drop. -/
theorem drop_table_spec (meta : Metadata) (t : String) (st : DBState) :
    (alookup meta t = none → drop_table meta t = .error (.unknownTable t)) ∧
    (∀ d, alookup meta t = some d →
      drop_table meta t = .ok (aremove meta t) ∧
      alookup (aremove meta t) t = none ∧
      (∀ u, u ≠ t → alookup (aremove meta t) u = alookup meta u)) ∧
    (runDrop st t).1.fs = st.fs := by
  refine ⟨?_, ?_, ?_⟩
  · intro h
    simp [drop_table, h]
  · intro d h
    refine ⟨by simp [drop_table, h], alookup_aremove_self meta t, ?_⟩
    intro u hu
    exact alookup_aremove_ne meta t u hu
  · cases hd : drop_table st.meta t <;> simp [runDrop, hd]

/-- C8 (witness): dropping from an empty registry fails; dropping t from
its registry succeeds and leaves the record file in place. -/
theorem drop_table_spec_witness :
    drop_table ([] : Metadata) "t" = .error (.unknownTable "t") ∧
    drop_table metaTS "t" = .ok (aremove metaTS "t") ∧
    (runDrop ⟨metaTS, fsOne⟩ "t").1.fs = fsOne :=
  ⟨(drop_table_spec [] "t" ⟨[], []⟩).1 rfl,
   ((drop_table_spec metaTS "t" ⟨metaTS, fsOne⟩).2.1
     [Column.mk "ID" "int", Column.mk "s" "str"] (by decide)).1,
   (drop_table_spec metaTS "t" ⟨metaTS, fsOne⟩).2.2⟩

/-! ### Claim C9: command tokenization -/

/-- C9 (counterexample): a single-quoted word wrapped in double quotes
loses its inner single quotes (the post-findall strip removes all edge
quotes of both kinds, not just the outer pair), and an unquoted run is
split at an interior quote character rather than kept as one maximal
non-whitespace token. -/
theorem tokenizer_not_verbatim :
    parse_command_parts cmdNested = ["a"] ∧
    parse_command_parts cmdNested ≠ [String.mk [sqc, 'a', sqc]] ∧
    parse_command_parts cmdSplit = ["a", "b"] :=
  ⟨by decide, by decide, by decide⟩

/-- C9 (amended): a double-quoted span (no interior double quote)
becomes exactly one token whose value is the interior with every edge
single-quote character also stripped — interior whitespace and interior
non-edge quotes survive; and a run of characters that are neither
whitespace nor quotes of either kind becomes exactly one verbatim
token.  Unquoted runs are delimited by quotes as well as whitespace. -/
theorem parse_command_parts_spec (inner t2 : List Char) :
    (dqc ∉ inner →
      parse_command_parts (String.mk (dqc :: (inner ++ [dqc]))) =
        [String.mk (stripBoth (fun c => c = sqc) inner)]) ∧
    (t2 ≠ [] → (∀ c ∈ t2, isPlain c = true) →
      parse_command_parts (String.mk t2) = [String.mk t2]) := by
  constructor
  · intro h
    have hlen : (dqc :: (inner ++ [dqc])).length = inner.length + 1 + 1 := by
      simp
    have hscan : scanAux (inner.length + 1 + 1) (dqc :: (inner ++ [dqc])) =
        [dqc :: (inner ++ [dqc])] := by
      simp only [scanAux, show isPlain dqc = false from by decide,
        Bool.false_eq_true, if_false, splitAtCh_wrap h]
      simp [scanAux_nil]
    unfold parse_command_parts scanParts
    rw [show (String.mk (dqc :: (inner ++ [dqc]))).toList =
      dqc :: (inner ++ [dqc]) from rfl]
    rw [hlen, hscan]
    simp only [List.map_cons, List.map_nil]
    have hdq : stripBoth (fun c => c = dqc) (dqc :: (inner ++ [dqc])) = inner := by
      apply stripBoth_wrap_allfalse (by simp)
      intro x hx
      have hxd : x ≠ dqc := fun hh => h (hh ▸ hx)
      simp [hxd]
    rw [hdq]
  · intro hne hp
    cases t2 with
    | nil => exact absurd rfl hne
    | cons c cs =>
      have hc : isPlain c = true := hp c (by simp)
      have htake : cs.takeWhile isPlain = cs := by
        rw [List.takeWhile_eq_self_iff]
        intro a ha
        exact hp a (by simp [ha])
      have hdrop : cs.dropWhile isPlain = [] := by
        rw [List.dropWhile_eq_nil_iff]
        intro a ha
        exact hp a (by simp [ha])
      have hscan : scanAux (cs.length + 1) (c :: cs) = [c :: cs] := by
        simp only [scanAux, hc, if_true, htake, hdrop]
        simp [scanAux_nil]
      unfold parse_command_parts scanParts
      rw [show (String.mk (c :: cs)).toList = c :: cs from rfl]
      rw [show (c :: cs).length = cs.length + 1 from by simp, hscan]
      simp only [List.map_cons, List.map_nil]
      have hdqall : ∀ x ∈ c :: cs, ((x = dqc : Bool)) = false := by
        intro x hx
        have hpx := hp x hx
        simp [isPlain] at hpx
        simp [hpx.1.2]
      have hsqall : ∀ x ∈ c :: cs, ((x = sqc : Bool)) = false := by
        intro x hx
        have hpx := hp x hx
        simp [isPlain] at hpx
        simp [hpx.2]
      rw [stripBoth_all_false hdqall, stripBoth_all_false hsqall]

/-- C9 (witness): the amended theorem applied to a double-quoted span
with interior whitespace and edge single quotes, and to a plain run. -/
theorem parse_command_parts_spec_witness :
    parse_command_parts (String.mk (dqc :: (([sqc, 'a', ' ', 'b', sqc]) ++ [dqc]))) =
      [String.mk (stripBoth (fun c => c = sqc) [sqc, 'a', ' ', 'b', sqc])] ∧
    parse_command_parts (String.mk ['a', 'b']) = [String.mk ['a', 'b']] :=
  ⟨(parse_command_parts_spec [sqc, 'a', ' ', 'b', sqc] ['a', 'b']).1 (by decide),
   (parse_command_parts_spec [sqc, 'a', ' ', 'b', sqc] ['a', 'b']).2 (by decide)
     (by decide)⟩
